import Mathlib

/-! # Portfolio interaction script (`script.js`)

A shallow embedding of the page script: theme and accent switching, the snapshot
counters, the particle field and the contact form.

Conventions of the embedding.

* A JavaScript string is the list of its UTF-16 code units (`JsString`); `length`,
  `trim` and the regular expression (no `u` flag) all work on code units.
* The DOM is not part of the script. The parts of the page that the handlers read
  and write are record fields; an element the script looks up defensively
  (`if (!feedbackEl) return`, `if (errorEl) ...`) is an `Option`.
* A finite double is a rational. The counter code is taken with exact arithmetic
  and with `Math.pow` as a parameter; a target that is an infinity is covered by
  `JsDouble`. In the particle code the sum of two doubles is a parameter, so
  that nothing is assumed about how it rounds.
-/

namespace Script

/-! ## Strings -/

/-- A JavaScript string, as its sequence of UTF-16 code units. -/
abbrev JsString := List Nat

/-- The UTF-16 code units of a string literal. -/
def utf16 (s : String) : JsString :=
  s.toList.flatMap fun c =>
    if c.toNat < 65536 then [c.toNat]
    else [55296 + (c.toNat - 65536) / 1024, 56320 + (c.toNat - 65536) % 1024]

/-- The code units `String.prototype.trim` strips: ECMAScript `WhiteSpace`
(TAB, VT, FF, ZWNBSP and the space separators) and `LineTerminator`
(LF, CR, LS, PS). -/
def isWhiteSpace (c : Nat) : Bool :=
  c == 9 || c == 10 || c == 11 || c == 12 || c == 13 || c == 32 || c == 160 ||
  c == 5760 || (8192 ≤ c && c ≤ 8202) || c == 8232 || c == 8233 || c == 8239 ||
  c == 8287 || c == 12288 || c == 65279

/-- The method `String.prototype.trim`. -/
def trim (s : JsString) : JsString :=
  ((s.dropWhile isWhiteSpace).reverse.dropWhile isWhiteSpace).reverse

/-! ## The regular expression of the e-mail check

`/^[\w-.]+@[\w-]+\.[a-z]{2,}$/i` is a sequence of character classes, each with a
repetition count, anchored at both ends. -/

/-- A character class: a union of inclusive code-unit ranges, all of them ASCII here. -/
abbrev CharClass := List (Nat × Nat)

/-- Upper-casing of an ASCII code unit. -/
def asciiUpper (c : Nat) : Nat :=
  if 97 ≤ c ∧ c ≤ 122 then c - 32 else c

/-- Lower-casing of an ASCII code unit. -/
def asciiLower (c : Nat) : Nat :=
  if 65 ≤ c ∧ c ≤ 90 then c + 32 else c

/-- Whether the code unit `c` matches the class under the `i` flag: some member
`a` of the class has `Canonicalize(a) = Canonicalize(c)`. `Canonicalize` maps
through `toUpperCase`, and without the `u` flag it never maps a code unit of
value 128 or more to one below 128. Against an ASCII class only ASCII input can
therefore match, and the members with the canonical form of `c` are `c` itself
and its upper- and lower-case forms. -/
def CharClass.test (cls : CharClass) (c : Nat) : Bool :=
  c < 128 && cls.any fun r =>
    [c, asciiUpper c, asciiLower c].any fun a => r.1 ≤ a && a ≤ r.2

/-- One term of the pattern: a class repeated `min` times (`unbounded = false`)
or at least `min` times (`unbounded = true`). -/
structure Piece where
  cls : CharClass
  min : Nat
  unbounded : Bool

/-- Match `min` (or at least `min`) code units of the class at the front of the
input, greedily with backtracking, then continue with `k` on the rest. -/
def repeatThen (c : Nat → Bool) (k : JsString → Bool) : Nat → Bool → JsString → Bool
  | 0, false, s => k s
  | 0, true, [] => k []
  | 0, true, x :: xs => (c x && repeatThen c k 0 true xs) || k (x :: xs)
  | _ + 1, _, [] => false
  | m + 1, u, x :: xs => c x && repeatThen c k m u xs

/-- Match a sequence of pieces against the whole input (`^ ... $`). -/
def matchPieces : List Piece → JsString → Bool
  | [] => fun s => s.isEmpty
  | p :: ps => repeatThen p.cls.test (matchPieces ps) p.min p.unbounded

/-- The class `\w`: `[A-Za-z0-9_]`. -/
def wordClass : CharClass := [(65, 90), (97, 122), (48, 57), (95, 95)]

/-- The pattern `^[\w-.]+@[\w-]+\.[a-z]{2,}$`. -/
def emailPattern : List Piece :=
  [ ⟨wordClass ++ [(45, 45), (46, 46)], 1, true⟩,   -- [\w-.]+
    ⟨[(64, 64)], 1, false⟩,                          -- @
    ⟨wordClass ++ [(45, 45)], 1, true⟩,              -- [\w-]+
    ⟨[(46, 46)], 1, false⟩,                          -- \.
    ⟨[(97, 122)], 2, true⟩ ]                         -- [a-z]{2,}

/-- The call `/^[\w-.]+@[\w-]+\.[a-z]{2,}$/i.test(s)`. -/
def emailRegexTest (s : JsString) : Bool :=
  matchPieces emailPattern s

/-- The code units of `\w`: an ASCII letter, a digit or the underscore. -/
def IsWordChar (c : Nat) : Prop :=
  (48 ≤ c ∧ c ≤ 57) ∨ (65 ≤ c ∧ c ≤ 90) ∨ c = 95 ∨ (97 ≤ c ∧ c ≤ 122)

/-- An ASCII letter of either case. -/
def IsAsciiLetter (c : Nat) : Prop :=
  (65 ≤ c ∧ c ≤ 90) ∨ (97 ≤ c ∧ c ≤ 122)

instance (c : Nat) : Decidable (IsWordChar c) := by
  unfold IsWordChar; infer_instance

instance (c : Nat) : Decidable (IsAsciiLetter c) := by
  unfold IsAsciiLetter; infer_instance

/-! ## Contact form -/

/-- One of the three form controls, with the error region that sits next to it
in the same wrapper (`field.parentElement.querySelector('.error')`).

Modelled from the spec: the page markup is not part of the script; the DOM
contract gives the form a `name`, an `email` and a `message` field, a feedback
region and per-field error regions. -/
structure Field where
  /-- Current content of the control. -/
  value : JsString
  /-- Content the control returns to on `form.reset()`. -/
  defaultValue : JsString
  /-- Text of the error region, `none` when the wrapper has no `.error` element. -/
  error : Option JsString
  deriving DecidableEq

/-- The feedback region `.form-feedback`. -/
structure Feedback where
  textContent : JsString
  color : JsString
  deriving DecidableEq

/-- The contact form. `resets` counts the calls of `form.reset()`. -/
structure Form where
  name : Field
  email : Field
  message : Field
  /-- The element `form.querySelector('.form-feedback')`, when there is one. -/
  feedback : Option Feedback
  resets : Nat
  deriving DecidableEq

/-- The names of the three controls. -/
inductive FieldName
  | name
  | email
  | message
  deriving DecidableEq

/-- The computed style of the root element, as a map from property names to values. -/
abbrev ComputedStyle := JsString → JsString

/-- The function `getCSS`. -/
def getCSS (computed : ComputedStyle) (varName : JsString) : JsString :=
  trim (computed varName)

/-- The function `clearErrors`: every `.error` region of the form is emptied. -/
def clearErrors (f : Form) : Form :=
  { f with
    name := { f.name with error := f.name.error.map fun _ => [] }
    email := { f.email with error := f.email.error.map fun _ => [] }
    message := { f.message with error := f.message.error.map fun _ => [] } }

/-- The function `showError`: the error region of the named field, when present,
receives the message. -/
def showError (f : Form) (field : FieldName) (msg : JsString) : Form :=
  match field with
  | .name => { f with name := { f.name with error := f.name.error.map fun _ => msg } }
  | .email => { f with email := { f.email with error := f.email.error.map fun _ => msg } }
  | .message =>
    { f with message := { f.message with error := f.message.error.map fun _ => msg } }

/-- The function `setFeedback`. -/
def setFeedback (computed : ComputedStyle) (f : Form) (msg : JsString) (success : Bool) :
    Form :=
  match f.feedback with
  | none => f
  | some _ =>
    let color := if success then getCSS computed (utf16 "--accent-2") else utf16 "#ff6b6b"
    { f with feedback := some ⟨msg, color⟩ }

/-- The method `form.reset()`: every control returns to its default value. -/
def Form.reset (f : Form) : Form :=
  { f with
    name := { f.name with value := f.name.defaultValue }
    email := { f.email with value := f.email.defaultValue }
    message := { f.message with value := f.message.defaultValue }
    resets := f.resets + 1 }

def nameRequired : JsString := utf16 "Name is required."

def emailInvalid : JsString := utf16 "Enter a valid email."

def messageTooShort : JsString := utf16 "Share at least 24 characters so I can prep properly."

def failureMessage : JsString := utf16 "Please correct the highlighted fields."

def successMessage : JsString :=
  utf16 "Thanks! Your message is on its way. I’ll respond within 48 hours."

/-- The submit handler of `initContactForm`. The three values are what
`new FormData(form)` holds for the controls, their current content. -/
def onSubmit (computed : ComputedStyle) (form : Form) : Form :=
  let name := trim form.name.value
  let email := trim form.email.value
  let message := trim form.message.value
  let isValid := true
  let f := clearErrors form
  let (f, isValid) :=
    if name.isEmpty then (showError f .name nameRequired, false) else (f, isValid)
  let (f, isValid) :=
    if email.isEmpty || !emailRegexTest email then (showError f .email emailInvalid, false)
    else (f, isValid)
  let (f, isValid) :=
    if message.isEmpty || decide (message.length < 24) then
      (showError f .message messageTooShort, false)
    else (f, isValid)
  if !isValid then
    setFeedback computed f failureMessage false
  else
    (setFeedback computed f successMessage true).reset

/-- The three conditions of a valid submission, in the words of the contract:
a non-empty trimmed name, a trimmed e-mail that matches the pattern, and a
trimmed message of at least 24 code units. -/
def ValidSubmission (name email message : JsString) : Prop :=
  trim name ≠ [] ∧ emailRegexTest (trim email) = true ∧ 24 ≤ (trim message).length

instance (name email message : JsString) : Decidable (ValidSubmission name email message) := by
  unfold ValidSubmission; infer_instance

/-- A form as the page first shows it: empty controls, empty error regions, an
empty feedback region. -/
def blankForm : Form :=
  { name := ⟨[], [], some []⟩
    email := ⟨[], [], some []⟩
    message := ⟨[], [], some []⟩
    feedback := some ⟨[], []⟩
    resets := 0 }

/-- The form with the three controls filled in. -/
def Form.fill (f : Form) (name email message : JsString) : Form :=
  { f with
    name := { f.name with value := name }
    email := { f.email with value := email }
    message := { f.message with value := message } }

/-! ## Numbers of the theme and accent code

The accent index is a double. The values that matter are NaN and the integers of
magnitude at most `2 ^ 53`; on these `+ 1` and `%` are computed without rounding,
except that `2 ^ 53 + 1` rounds back to `2 ^ 53`. A negative zero is not told
apart from zero: as a property key and as a string both are `0`. -/

/-- A number: NaN, or an integer-valued double of magnitude at most `2 ^ 53`. -/
inductive JsNumber
  | nan
  | int (z : Int)
  deriving DecidableEq

/-- The expression `x + 1`. -/
def JsNumber.addOne : JsNumber → JsNumber
  | .nan => .nan
  | .int z => .int (min (z + 1) (2 ^ 53))

/-- The expression `x % n` for an array length `n`: the remainder has the sign of
the dividend, and `x % 0` is NaN. -/
def JsNumber.mod : JsNumber → Nat → JsNumber
  | .nan, _ => .nan
  | .int _, 0 => .nan
  | .int z, n + 1 => .int (z.tmod (n + 1))

/-- The decimal digits of a natural number, as code units; `fuel` bounds the
number of digits. -/
def natDigits : Nat → Nat → JsString → JsString
  | 0, _, acc => acc
  | fuel + 1, n, acc =>
    if n < 10 then (48 + n) :: acc else natDigits fuel (n / 10) ((48 + n % 10) :: acc)

/-- The string form of a natural number. -/
def natToString (n : Nat) : JsString :=
  natDigits (n + 1) n []

/-- The string form `String(x)` of a number. -/
def JsNumber.toJsString : JsNumber → JsString
  | .nan => utf16 "NaN"
  | .int z => if z < 0 then 45 :: natToString z.natAbs else natToString z.natAbs

/-- The value of a string of decimal digits, `none` when a code unit is not a digit. -/
def decimalValue : JsString → Nat → Option Nat
  | [], acc => some acc
  | c :: cs, acc => if 48 ≤ c ∧ c ≤ 57 then decimalValue cs (10 * acc + (c - 48)) else none

/-- The conversion `Number(s)` of a string, on the part of its domain that is
modelled: surrounding white space is dropped; the empty string gives `0`; an
optional sign followed by decimal digits whose value is at most `2 ^ 53` gives
that integer; a string that starts with a code unit no numeric literal starts
with (anything but a digit, a sign, a dot or the `I` of `Infinity`) gives NaN.
Every other string (fractions, exponents, prefixed literals, larger values) is
outside the model: `none`. -/
def stringToNumber (s : JsString) : Option JsNumber :=
  match trim s with
  | [] => some (.int 0)
  | c :: cs =>
    if (48 ≤ c ∧ c ≤ 57) ∨ c = 43 ∨ c = 45 ∨ c = 46 ∨ c = 73 then
      let digits := if c = 43 ∨ c = 45 then cs else c :: cs
      match digits, decimalValue digits 0 with
      | _ :: _, some n =>
        if n ≤ 2 ^ 53 then some (.int (if c = 45 then -(n : Int) else n)) else none
      | _, _ => none
    else some .nan

/-! ## Theme and accent -/

/-- An entry of the palette `ACCENTS`. -/
structure Accent where
  name : JsString
  main : JsString
  secondary : JsString
  deriving DecidableEq

/-- The expression `a || b` on strings: the empty string is falsy. -/
def orElse (a b : JsString) : JsString :=
  if a.isEmpty then b else a

/-- The palette `ACCENTS`, built once when the script loads. -/
def ACCENTS (computed : ComputedStyle) : List Accent :=
  [ ⟨utf16 "blue", orElse (getCSS computed (utf16 "--accent-blue")) (utf16 "#4cc9ff"),
      utf16 "#72ddff"⟩,
    ⟨utf16 "green", orElse (getCSS computed (utf16 "--accent-green")) (utf16 "#00f5a0"),
      utf16 "#44ffc3"⟩,
    ⟨utf16 "orange", orElse (getCSS computed (utf16 "--accent-orange")) (utf16 "#ff8a00"),
      utf16 "#ffb357"⟩,
    ⟨utf16 "pink", orElse (getCSS computed (utf16 "--accent-pink")) (utf16 "#ff46c6"),
      utf16 "#ff7bdd"⟩ ]

/-- The state the theme and accent code works on. -/
structure Page where
  /-- The attribute `data-theme` of the root element. -/
  dataTheme : Option JsString
  /-- The custom properties set on the root element through `style.setProperty`. -/
  style : JsString → Option JsString
  /-- The origin-scoped `localStorage`. -/
  storage : JsString → Option JsString
  /-- The script variable `accentIndex`. -/
  accentIndex : JsNumber
  /-- The result of `matchMedia('(prefers-color-scheme: light)').matches`. -/
  prefersLight : Bool

/-- A failure that aborts the running handler. -/
inductive JsError
  | typeError
  deriving DecidableEq

/-- The function `setCSS`. Every value written by the script is a non-empty
custom-property value, which `setProperty` stores as given. -/
def setCSS (p : Page) (varName value : JsString) : Page :=
  { p with style := fun k => if k = varName then some value else p.style k }

/-- The method `localStorage.setItem`. -/
def setItem (p : Page) (key value : JsString) : Page :=
  { p with storage := fun k => if k = key then some value else p.storage k }

/-- The value of a hexadecimal digit. -/
def hexDigit (c : Nat) : Option Nat :=
  if 48 ≤ c ∧ c ≤ 57 then some (c - 48)
  else if 97 ≤ c ∧ c ≤ 102 then some (c - 87)
  else if 65 ≤ c ∧ c ≤ 70 then some (c - 55)
  else none

/-- The longest run of hexadecimal digits at the front of the input, and its
value; `acc` carries the value and `seen` whether a digit was read. -/
def hexRun : JsString → Nat → Bool → Option Nat
  | [], acc, seen => if seen then some acc else none
  | c :: cs, acc, seen =>
    match hexDigit c with
    | some d => hexRun cs (16 * acc + d) true
    | none => if seen then some acc else none

/-- The double nearest to a natural number (ties to even), `none` when it
overflows to `Infinity`. -/
def roundToDouble (n : Nat) : Option Nat :=
  if n < 2 ^ 53 then some n
  else
    let e := Nat.log2 n + 1 - 53
    let q := n / 2 ^ e
    let r := n % 2 ^ e
    let up := decide (2 ^ (e - 1) < r) || (decide (r = 2 ^ (e - 1)) && decide (q % 2 = 1))
    let m := (if up then q + 1 else q) * 2 ^ e
    if m < 2 ^ 1024 then some m else none

/-- The call `parseInt(s, 16)`: leading white space, a sign and a `0x` or `0X`
mark are skipped, then the longest run of hexadecimal digits is read. The result
is `none` for NaN and for an infinity, which the bit operators both read as 0. -/
def parseIntHex (s : JsString) : Option Int :=
  let s := s.dropWhile isWhiteSpace
  let negative := s.head? = some 45
  let s := if s.head? = some 45 ∨ s.head? = some 43 then s.tail else s
  let s :=
    match s with
    | 48 :: x :: rest => if x = 120 ∨ x = 88 then rest else s
    | _ => s
  match hexRun s 0 false with
  | none => none
  | some n =>
    match roundToDouble n with
    | none => none
    | some m => some (if negative then -(m : Int) else m)

/-- The expression `(x >> shift) & 255`: the operand is reduced modulo `2 ^ 32`
(NaN and the infinities count as 0), and eight bits are read at `shift`. -/
def shiftAnd255 (x : Option Int) (shift : Nat) : Nat :=
  match x with
  | none => 0
  | some z => (z % 2 ^ 32).toNat / 2 ^ shift % 256

/-- The call `hex.replace('#', '')`: the first `#` is removed. -/
def removeFirstHash : JsString → JsString
  | [] => []
  | c :: cs => if c = 35 then cs else c :: removeFirstHash cs

/-- The call `hx.replace(/(.)/g, '$1$1')`: every code unit but a line terminator
is doubled. -/
def doubleEach (s : JsString) : JsString :=
  s.flatMap fun c => if c = 10 ∨ c = 13 ∨ c = 8232 ∨ c = 8233 then [c] else [c, c]

/-- The function `hexToRgba`, applied to the string form of an opacity. -/
def hexToRgba (hex alpha : JsString) : JsString :=
  let hx := removeFirstHash hex
  let bigint := parseIntHex (if hx.length = 3 then doubleEach hx else hx)
  let r := shiftAnd255 bigint 16
  let g := shiftAnd255 bigint 8
  let b := shiftAnd255 bigint 0
  utf16 "rgba(" ++ natToString r ++ utf16 ", " ++ natToString g ++ utf16 ", " ++
    natToString b ++ utf16 ", " ++ alpha ++ utf16 ")"

/-- The indexing `ACCENTS[x]`: `undefined` unless `x` is an index of the array. -/
def accentAt (palette : List Accent) : JsNumber → Option Accent
  | .nan => none
  | .int z => if 0 ≤ z then palette.get? z.toNat else none

/-- The function `currentTheme`. -/
def currentTheme (p : Page) : JsString :=
  if p.dataTheme = some (utf16 "light") then utf16 "light" else utf16 "dark"

/-- The function `setTheme`. -/
def setTheme (p : Page) (theme : JsString) : Page :=
  setItem { p with dataTheme := some theme } (utf16 "eliud-theme") theme

/-- The function `toggleTheme`. -/
def toggleTheme (p : Page) : Page :=
  let next := if currentTheme p = utf16 "dark" then utf16 "light" else utf16 "dark"
  setTheme p next

/-- The function `updateAccent`. Reading `accent.main` of `undefined` throws. The
opacities `0.32`, `0.65` and `0.30` enter in their string forms. -/
def updateAccent (computed : ComputedStyle) (p : Page) (index : JsNumber) :
    Except JsError Page :=
  let palette := ACCENTS computed
  match accentAt palette (index.mod palette.length) with
  | none => .error .typeError
  | some accent =>
    let p := setCSS p (utf16 "--accent") accent.main
    let p := setCSS p (utf16 "--accent-2") accent.secondary
    let rgba := hexToRgba accent.main
    let p := setCSS p (utf16 "--accent-shadow") (rgba (utf16 "0.32"))
    let p := setCSS p (utf16 "--glow")
      (utf16 "0 0 24px " ++ rgba (utf16 "0.65") ++ utf16 ", 0 0 48px " ++ rgba (utf16 "0.3"))
    .ok (setItem p (utf16 "eliud-accent-index") (index.mod palette.length).toJsString)

/-- The function `initTheme`. -/
def initTheme (computed : ComputedStyle) (p : Page) : Except JsError Page :=
  let storedTheme := p.storage (utf16 "eliud-theme")
  let p :=
    if storedTheme = some (utf16 "light") ∨ storedTheme = some (utf16 "dark") then
      setTheme p (storedTheme.getD [])
    else
      setTheme p (if p.prefersLight then utf16 "light" else utf16 "dark")
  updateAccent computed p p.accentIndex

/-- The accent step of the click handler of `initToggle`: the index advances
modulo the palette length and `updateAccent` applies it. -/
def cycleAccent (computed : ComputedStyle) (p : Page) : Except JsError Page :=
  let p := { p with accentIndex := p.accentIndex.addOne.mod (ACCENTS computed).length }
  updateAccent computed p p.accentIndex

/-- The click handler of `initToggle`, on the page state: the accent step, then
`toggleTheme`. The ripple and the delayed replay of the reveals touch neither
the theme nor the accent. -/
def onToggleClick (computed : ComputedStyle) (p : Page) : Except JsError Page :=
  (cycleAccent computed p).map toggleTheme

/-- The accent step run `n` times, for a run in which no step throws: a step
that throws ends the modelled run, and the page a thrown handler leaves behind
(with `accentIndex` already assigned) is not followed further. -/
def cycleAccentTimes (computed : ComputedStyle) : Nat → Page → Except JsError Page
  | 0, p => .ok p
  | n + 1, p => cycleAccentTimes computed n p >>= cycleAccent computed

/-- Direct selection of the palette index `k`: the index is stored in the script
variable and applied. -/
def selectAccent (computed : ComputedStyle) (p : Page) (k : Nat) : Except JsError Page :=
  updateAccent computed { p with accentIndex := .int k } (.int k)

/-- What is observed of the accent: the current index, the persisted
`eliud-accent-index` and the applied `--accent` and `--accent-2`. -/
def accentView (p : Page) : JsNumber × Option JsString × Option JsString × Option JsString :=
  (p.accentIndex, p.storage (utf16 "eliud-accent-index"), p.style (utf16 "--accent"),
    p.style (utf16 "--accent-2"))

/-- The script at load time: the declaration of `accentIndex` reads the persisted
index, `Number(localStorage.getItem('eliud-accent-index') || 0)`; `none` when the
stored string is outside the modelled part of `Number`. -/
def loadScript (storage : JsString → Option JsString) (dataTheme : Option JsString)
    (prefersLight : Bool) : Option Page :=
  let stored := storage (utf16 "eliud-accent-index")
  let accentIndex :=
    match stored with
    | none => some (JsNumber.int 0)
    | some [] => some (JsNumber.int 0)
    | some s => stringToNumber s
  accentIndex.map fun n =>
    { dataTheme := dataTheme, style := fun _ => none, storage := storage, accentIndex := n,
      prefersLight := prefersLight }

/-- A computed style that defines none of the accent variables. -/
def noStyle : ComputedStyle := fun _ => []

/-- A `localStorage` that holds the one entry `key ↦ value`. -/
def storageWith (key value : JsString) : JsString → Option JsString :=
  fun k => if k = key then some value else none

/-- A page before the script has touched it: no theme attribute, no custom
property, an empty `localStorage`, and `accentIndex` at its default 0. -/
def freshPage : Page :=
  { dataTheme := none, style := fun _ => none, storage := fun _ => none,
    accentIndex := .int 0, prefersLight := false }

/-- The fresh page with palette entry 0 applied, as `initTheme` leaves it. -/
def selectedPage : Page :=
  match selectAccent noStyle freshPage 0 with
  | .ok q => q
  | .error _ => freshPage

/-- The error a run ends with, if it does not complete. -/
def failure (r : Except JsError Page) : Option JsError :=
  match r with
  | .ok _ => none
  | .error e => some e

/-- The start of the page: the script loads, then the `DOMContentLoaded` handler
calls `initTheme` first. `none` when the stored accent index is outside the
modelled part of `Number`. -/
def startup (computed : ComputedStyle) (storage : JsString → Option JsString)
    (dataTheme : Option JsString) (prefersLight : Bool) : Option (Except JsError Page) :=
  (loadScript storage dataTheme prefersLight).map (initTheme computed)

/-! ## Snapshot counters

The numbers of the counter code are rationals: the arithmetic is taken exact.
`Math.pow` is a library function and enters as the parameter `pow`. -/

/-- The call `Math.round(x)`: the nearest integer, a tie going up. -/
def mathRound (x : ℚ) : ℤ :=
  ⌊x + 1 / 2⌋

/-- The function `easeOutExpo`. -/
def easeOutExpo (pow : ℚ → ℚ → ℚ) (t : ℚ) : ℚ :=
  if t = 1 then 1 else 1 - pow 2 (-10 * t)

/-- The constant `duration` of `animateCount`. -/
def duration : ℚ := 2000

/-- The value of `progress` in `update`: `Math.min((now - start) / duration, 1)`. -/
def progress (start now : ℚ) : ℚ :=
  min ((now - start) / duration) 1

/-- One call `update(now)` of the frame callback of `animateCount`, for a finite
target: the number written to `textContent`, and whether
`requestAnimationFrame(update)` is called again. `updateDouble` is the same call
for any target, the infinities included. -/
def update (pow : ℚ → ℚ → ℚ) (target start now : ℚ) : ℤ × Bool :=
  let progress := progress start now
  let eased := easeOutExpo pow progress
  (mathRound (target * eased), decide (progress < 1))

/-- The number `update(now)` displays, for a finite target. -/
def displayed (pow : ℚ → ℚ → ℚ) (target start now : ℚ) : ℤ :=
  (update pow target start now).1

/-- The text of a counter element: the text of the markup, or a number the script
has written (shown in its string form). -/
inductive Content
  | markup (s : JsString)
  | number (q : ℚ)
  deriving DecidableEq

/-- An element with a `data-count` attribute. -/
structure CounterEl where
  /-- The value `Number(el.dataset.count || 0)`, `none` for NaN. -/
  target : Option ℚ
  textContent : Content
  /-- Whether `counterObserver` observes the element. -/
  observed : Bool
  /-- The start time of the frame loop while a call of `update` is pending. -/
  pending : Option ℚ
  deriving DecidableEq

/-- The closure `animateCount`; `clock` is the reading of `performance.now()`. -/
def animateCount (prefersReduced : Bool) (clock : ℚ) (el : CounterEl) : CounterEl :=
  match el.target with
  | none => el
  | some target =>
    if target = 0 then el
    else if prefersReduced then { el with textContent := .number target }
    else { el with pending := some clock }

/-- An entry delivered to the observer callback. -/
structure Entry where
  /-- The position of `entry.target` among the counter elements. -/
  index : Nat
  isIntersecting : Bool
  /-- The reading of `performance.now()` while the entry is handled. -/
  clock : ℚ

/-- The counters after `initCounters`: the flag read from the reduced-motion
media query, and the elements. -/
structure Counters where
  prefersReduced : Bool
  els : List CounterEl

/-- The function `initCounters`: with no counter element it returns at once,
otherwise every element is handed to the observer. -/
def initCounters (prefersReduced : Bool) (counterEls : List CounterEl) : Counters :=
  if counterEls.isEmpty then ⟨prefersReduced, counterEls⟩
  else ⟨prefersReduced, counterEls.map fun el => { el with observed := true }⟩

/-- The body of the observer callback for one entry. The observer delivers
entries for observed elements only. -/
def onEntry (c : Counters) (entry : Entry) : Counters :=
  if entry.isIntersecting then
    let handle := fun (el : CounterEl) =>
      if el.observed then
        let el := animateCount c.prefersReduced entry.clock el
        { el with observed := false }
      else el
    { c with els := c.els.modify handle entry.index }
  else c

/-- The observer callback of `initCounters`. -/
def onIntersect (c : Counters) (entries : List Entry) : Counters :=
  entries.foldl onEntry c

/-- The delivery of an animation frame with time stamp `now` to an element with a
pending `update`. -/
def onFrame (pow : ℚ → ℚ → ℚ) (now : ℚ) (el : CounterEl) : CounterEl :=
  match el.pending, el.target with
  | some start, some target =>
    let r := update pow target start now
    { el with textContent := .number r.1, pending := if r.2 then some start else none }
  | _, _ => el

/-- A double in full: NaN, an infinity, or a finite value. -/
inductive JsDouble
  | nan
  | negInf
  | posInf
  | fin (q : ℚ)
  deriving DecidableEq

/-- The product `a * b` with a finite right factor: an infinity times zero is
NaN, and otherwise the sign of the factor decides the sign of the infinity. -/
def JsDouble.mulFin : JsDouble → ℚ → JsDouble
  | .nan, _ => .nan
  | .fin a, b => .fin (a * b)
  | .posInf, b => if b = 0 then .nan else if 0 < b then .posInf else .negInf
  | .negInf, b => if b = 0 then .nan else if 0 < b then .negInf else .posInf

/-- The call `Math.round(x)` on any double: NaN and the infinities are returned
as they are. -/
def JsDouble.round : JsDouble → JsDouble
  | .fin q => .fin (mathRound q)
  | x => x

/-- The comparison `a <= b` of two doubles: false as soon as one side is NaN. -/
def JsDouble.le : JsDouble → JsDouble → Prop
  | .nan, _ => False
  | _, .nan => False
  | .negInf, _ => True
  | _, .posInf => True
  | .fin a, .fin b => a ≤ b
  | .posInf, _ => False
  | .fin _, .negInf => False

/-- One call `update(now)` for any target that gets past `if (!target) return`,
the infinities included (`data-count="Infinity"`): the value written to
`textContent`, and whether another frame is requested. -/
def updateDouble (pow : ℚ → ℚ → ℚ) (target : JsDouble) (start now : ℚ) : JsDouble × Bool :=
  let progress := progress start now
  let eased := easeOutExpo pow progress
  ((target.mulFin eased).round, decide (progress < 1))

/-- The value `update(now)` displays, for any target. -/
def displayedDouble (pow : ℚ → ℚ → ℚ) (target : JsDouble) (start now : ℚ) : JsDouble :=
  (updateDouble pow target start now).1

/-- A stand-in for `Math.pow` that is exact at integer exponents and constant in
between. -/
def floorPow (b x : ℚ) : ℚ :=
  b ^ ⌊x⌋

/-! ## Particle field -/

/-- A particle of the ambient animation. Its fields are finite doubles, that
is, rationals: `createParticles` draws positions inside the viewport and speeds
between -0.3 and 0.3, and every step leaves the position between `-10` and the
viewport size plus 10. -/
structure Particle where
  x : ℚ
  y : ℚ
  radius : ℚ
  speedX : ℚ
  speedY : ℚ
  alpha : ℚ
  deriving DecidableEq

/-- The body of the `forEach` of `animateParticles` on the particle (the drawing
calls leave it alone): it advances by its velocity and is wrapped at the four
edges. The parameter `add` is the sum of two doubles, the `+` of `p.x += p.speedX`,
which rounds; the comparisons of doubles are exact. `innerWidth` and
`innerHeight` are the viewport size in pixels, 32-bit integers, for which
`innerWidth + 10` is computed without rounding. -/
def stepParticle (add : ℚ → ℚ → ℚ) (innerWidth innerHeight : ℕ) (p : Particle) : Particle :=
  let x := add p.x p.speedX
  let y := add p.y p.speedY
  let x := if x < -10 then (innerWidth : ℚ) + 10 else x
  let x := if x > (innerWidth : ℚ) + 10 then -10 else x
  let y := if y < -10 then (innerHeight : ℚ) + 10 else y
  let y := if y > (innerHeight : ℚ) + 10 then -10 else y
  { p with x := x, y := y }

/-- One frame of `animateParticles`: nothing happens without a drawing context. -/
def animateParticles (add : ℚ → ℚ → ℚ) (hasContext : Bool) (innerWidth innerHeight : ℕ)
    (particles : List Particle) : List Particle :=
  if !hasContext then particles
  else particles.map (stepParticle add innerWidth innerHeight)

/-! ## Theorems -/

/-! ### Evaluations of the string and number functions -/

theorem emailRegexTest_accepts_plain : emailRegexTest (utf16 "ada@example.com") = true := by
  decide

theorem emailRegexTest_accepts_mixed_case :
    emailRegexTest (utf16 "A.b-c_9@Ex-ample.COM") = true := by
  decide

theorem emailRegexTest_rejects_double_at : emailRegexTest (utf16 "ada@@x") = false := by
  decide

theorem emailRegexTest_rejects_short_suffix : emailRegexTest (utf16 "a@b.c") = false := by
  decide

theorem trim_strips_both_ends : trim (utf16 "  Ada \n") = utf16 "Ada" := by
  decide

theorem hexToRgba_six_digits :
    hexToRgba (utf16 "#4cc9ff") (utf16 "0.32") = utf16 "rgba(76, 201, 255, 0.32)" := by
  decide

theorem hexToRgba_three_digits :
    hexToRgba (utf16 "#fff") (utf16 "0.3") = utf16 "rgba(255, 255, 255, 0.3)" := by
  decide

theorem hexToRgba_not_hex :
    hexToRgba (utf16 "rgb(1,2,3)") (utf16 "0.3") = utf16 "rgba(0, 0, 0, 0.3)" := by
  decide

theorem stringToNumber_samples :
    stringToNumber (utf16 "abc") = some .nan ∧
    stringToNumber (utf16 "-1") = some (.int (-1)) ∧
    stringToNumber (utf16 " 7 ") = some (.int 7) ∧
    stringToNumber (utf16 "1.5") = none := by
  decide

theorem toJsString_samples :
    (JsNumber.int 3).toJsString = utf16 "3" ∧ (JsNumber.int (-12)).toJsString = utf16 "-12" ∧
    JsNumber.nan.toJsString = utf16 "NaN" := by
  decide

/-! ### The e-mail pattern, read as a language -/

/-- What `repeatThen` accepts: the input splits into a run of class members of
the required length and a rest that the continuation accepts. -/
theorem repeatThen_iff (c : Nat → Bool) (k : JsString → Bool) (u : Bool) :
    ∀ (s : JsString) (m : Nat),
      repeatThen c k m u s = true ↔
        ∃ a b, s = a ++ b ∧ (∀ x ∈ a, c x = true) ∧
          (if u = true then m ≤ a.length else a.length = m) ∧ k b = true := by
  intro s
  induction s with
  | nil =>
    intro m
    cases m with
    | zero =>
      have hk : repeatThen c k 0 u [] = k [] := by cases u <;> rfl
      rw [hk]
      constructor
      · intro h
        exact ⟨[], [], rfl, by simp, by cases u <;> simp, h⟩
      · rintro ⟨a, b, hs, _, _, hb⟩
        obtain ⟨_, rfl⟩ := List.append_eq_nil.mp hs.symm
        exact hb
    | succ m =>
      cases u <;> simp [repeatThen]
  | cons x xs ih =>
    intro m
    cases m with
    | zero =>
      cases u
      · simp only [repeatThen]
        constructor
        · intro h
          exact ⟨[], x :: xs, rfl, by simp, by simp, h⟩
        · rintro ⟨a, b, hs, _, hl, hk⟩
          simp at hl
          subst hl
          have hb : x :: xs = b := by simpa using hs
          rw [hb]
          exact hk
      · simp only [repeatThen, Bool.or_eq_true, Bool.and_eq_true]
        constructor
        · rintro (⟨hc, hr⟩ | hk)
          · obtain ⟨a, b, hs, ha, _, hk⟩ := (ih 0).mp hr
            refine ⟨x :: a, b, by simp [hs], ?_, by simp, hk⟩
            intro y hy
            rcases List.mem_cons.mp hy with rfl | hy
            · exact hc
            · exact ha y hy
          · exact ⟨[], x :: xs, rfl, by simp, by simp, hk⟩
        · rintro ⟨a, b, hs, ha, _, hk⟩
          cases a with
          | nil =>
            right
            have hb : x :: xs = b := by simpa using hs
            rw [hb]
            exact hk
          | cons y a =>
            left
            simp only [List.cons_append, List.cons.injEq] at hs
            obtain ⟨rfl, rfl⟩ := hs
            refine ⟨ha x (List.mem_cons_self _ _), (ih 0).mpr ⟨a, b, rfl, ?_, by simp, hk⟩⟩
            intro z hz
            exact ha z (List.mem_cons_of_mem _ hz)
    | succ m =>
      simp only [repeatThen, Bool.and_eq_true]
      constructor
      · rintro ⟨hc, hr⟩
        obtain ⟨a, b, hs, ha, hl, hk⟩ := (ih m).mp hr
        refine ⟨x :: a, b, by simp [hs], ?_, ?_, hk⟩
        · intro y hy
          rcases List.mem_cons.mp hy with rfl | hy
          · exact hc
          · exact ha y hy
        · cases u <;> simp_all
      · rintro ⟨a, b, hs, ha, hl, hk⟩
        cases a with
        | nil => cases u <;> simp at hl
        | cons y a =>
          simp only [List.cons_append, List.cons.injEq] at hs
          obtain ⟨rfl, rfl⟩ := hs
          refine ⟨ha x (List.mem_cons_self _ _), (ih m).mpr ⟨a, b, rfl, ?_, ?_, hk⟩⟩
          · intro z hz
            exact ha z (List.mem_cons_of_mem _ hz)
          · cases u <;> simp_all

theorem localClass_test (c : Nat) :
    (wordClass ++ [(45, 45), (46, 46)]).test c = true ↔ IsWordChar c ∨ c = 45 ∨ c = 46 := by
  by_cases h : c < 128
  · revert c
    decide
  · have : (wordClass ++ [(45, 45), (46, 46)]).test c = false := by
      simp [CharClass.test, h]
    rw [this]
    unfold IsWordChar
    constructor
    · intro h'
      cases h'
    · intro h'
      omega

theorem domainClass_test (c : Nat) :
    (wordClass ++ [(45, 45)]).test c = true ↔ IsWordChar c ∨ c = 45 := by
  by_cases h : c < 128
  · revert c
    decide
  · have : (wordClass ++ [(45, 45)]).test c = false := by
      simp [CharClass.test, h]
    rw [this]
    unfold IsWordChar
    constructor
    · intro h'
      cases h'
    · intro h'
      omega

theorem letterClass_test (c : Nat) :
    CharClass.test [(97, 122)] c = true ↔ IsAsciiLetter c := by
  by_cases h : c < 128
  · revert c
    decide
  · have : CharClass.test [(97, 122)] c = false := by
      simp [CharClass.test, h]
    rw [this]
    unfold IsAsciiLetter
    constructor
    · intro h'
      cases h'
    · intro h'
      omega

theorem atClass_test (c : Nat) : CharClass.test [(64, 64)] c = true ↔ c = 64 := by
  by_cases h : c < 128
  · revert c
    decide
  · have : CharClass.test [(64, 64)] c = false := by
      simp [CharClass.test, h]
    rw [this]
    constructor
    · intro h'
      cases h'
    · intro h'
      omega

theorem dotClass_test (c : Nat) : CharClass.test [(46, 46)] c = true ↔ c = 46 := by
  by_cases h : c < 128
  · revert c
    decide
  · have : CharClass.test [(46, 46)] c = false := by
      simp [CharClass.test, h]
    rw [this]
    constructor
    · intro h'
      cases h'
    · intro h'
      omega

theorem singleton_of_length_one (a : JsString) (v : Nat) (hl : a.length = 1)
    (ha : ∀ x ∈ a, x = v) : a = [v] := by
  match a, hl, ha with
  | [x], _, ha => rw [ha x (List.mem_singleton_self x)]

/-- The strings the e-mail test accepts: a non-empty local part of word
characters, hyphens and dots, an `@`, a non-empty domain label of word
characters and hyphens, a dot, and at least two ASCII letters of either case,
with nothing before or after. -/
theorem emailRegexTest_iff (s : JsString) :
    emailRegexTest s = true ↔
      ∃ l d t, s = l ++ 64 :: (d ++ 46 :: t) ∧
        l ≠ [] ∧ (∀ x ∈ l, IsWordChar x ∨ x = 45 ∨ x = 46) ∧
        d ≠ [] ∧ (∀ x ∈ d, IsWordChar x ∨ x = 45) ∧
        2 ≤ t.length ∧ (∀ x ∈ t, IsAsciiLetter x) := by
  simp only [emailRegexTest, emailPattern, matchPieces, repeatThen_iff, localClass_test,
    domainClass_test, letterClass_test, atClass_test, dotClass_test, if_true,
    Bool.false_eq_true, if_false]
  constructor
  · rintro ⟨l, r1, rfl, hl, hl1, a, r2, rfl, ha, ha1, d, r3, rfl, hd, hd1, b, r4, rfl, hb, hb1,
      t, r5, rfl, ht, ht2, he⟩
    have ha' := singleton_of_length_one a 64 ha1 ha
    have hb' := singleton_of_length_one b 46 hb1 hb
    have he' : r5 = [] := List.isEmpty_iff.mp he
    subst ha' hb' he'
    refine ⟨l, d, t, by simp, ?_, hl, ?_, hd, ht2, ht⟩
    · intro h
      rw [h] at hl1
      simp at hl1
    · intro h
      rw [h] at hd1
      simp at hd1
  · rintro ⟨l, d, t, rfl, hl0, hl, hd0, hd, ht2, ht⟩
    refine ⟨l, _, rfl, hl, ?_, [64], _, rfl, by simp, rfl, d, _, rfl, hd, ?_, [46], _, rfl,
      by simp, rfl, t, [], by simp, ht, ht2, rfl⟩
    · exact Nat.pos_of_ne_zero (fun h => hl0 (List.length_eq_zero.mp h))
    · exact Nat.pos_of_ne_zero (fun h => hd0 (List.length_eq_zero.mp h))

/-! ### Contact form -/

theorem email_check_eq (s : JsString) :
    (s.isEmpty || !emailRegexTest s) = !emailRegexTest s := by
  cases s with
  | nil => decide
  | cons a l => rfl

theorem message_check_eq (s : JsString) :
    (s.isEmpty || decide (s.length < 24)) = decide (s.length < 24) := by
  cases s with
  | nil => decide
  | cons a l => rfl

/-- The handler written out: which error regions are filled, and which outcome
is taken, as a function of the three checks. -/
theorem onSubmit_eq (computed : ComputedStyle) (form : Form) :
    onSubmit computed form =
      (let f := clearErrors form
       let f := if trim form.name.value = [] then showError f .name nameRequired else f
       let f := if emailRegexTest (trim form.email.value) = true then f
         else showError f .email emailInvalid
       let f := if 24 ≤ (trim form.message.value).length then f
         else showError f .message messageTooShort
       if ValidSubmission form.name.value form.email.value form.message.value then
         (setFeedback computed f successMessage true).reset
       else setFeedback computed f failureMessage false) := by
  unfold onSubmit ValidSubmission
  simp only [email_check_eq, message_check_eq]
  by_cases h1 : trim form.name.value = [] <;>
  by_cases h2 : emailRegexTest (trim form.email.value) = true <;>
  by_cases h3 : 24 ≤ (trim form.message.value).length <;>
  simp [h1, h2, h3, Nat.not_lt.mpr, Nat.lt_of_not_le]

theorem success_ne_failure : successMessage ≠ failureMessage := by decide

/-- C1. For every form (three submitted strings, any feedback and error regions),
the submit handler takes the success outcome exactly when the trimmed name is
non-empty, the trimmed e-mail matches the pattern and the trimmed message has at
least 24 code units. On success the feedback region, when the form has one,
shows the success message in the accent colour, `form.reset()` runs once and the
controls return to their default values. Otherwise the feedback region shows
`Please correct the highlighted fields.` in the error colour, no reset runs and
the controls keep their content. -/
theorem onSubmit_success_iff_valid (computed : ComputedStyle) (form : Form) :
    (ValidSubmission form.name.value form.email.value form.message.value →
      (onSubmit computed form).feedback =
          form.feedback.map (fun _ => ⟨successMessage, getCSS computed (utf16 "--accent-2")⟩) ∧
        (onSubmit computed form).resets = form.resets + 1 ∧
        (onSubmit computed form).name.value = form.name.defaultValue ∧
        (onSubmit computed form).email.value = form.email.defaultValue ∧
        (onSubmit computed form).message.value = form.message.defaultValue) ∧
    (¬ ValidSubmission form.name.value form.email.value form.message.value →
      (onSubmit computed form).feedback =
          form.feedback.map (fun _ => ⟨failureMessage, utf16 "#ff6b6b"⟩) ∧
        (onSubmit computed form).resets = form.resets ∧
        (onSubmit computed form).name.value = form.name.value ∧
        (onSubmit computed form).email.value = form.email.value ∧
        (onSubmit computed form).message.value = form.message.value) ∧
    ((onSubmit computed form).resets = form.resets + 1 ↔
      ValidSubmission form.name.value form.email.value form.message.value) ∧
    (∀ fb, form.feedback = some fb →
      ((onSubmit computed form).feedback.map Feedback.textContent = some successMessage ↔
        ValidSubmission form.name.value form.email.value form.message.value)) := by
  have key := onSubmit_eq computed form
  by_cases hv : ValidSubmission form.name.value form.email.value form.message.value
  · have h1 : trim form.name.value ≠ [] := hv.1
    have h2 : emailRegexTest (trim form.email.value) = true := hv.2.1
    have h3 : 24 ≤ (trim form.message.value).length := hv.2.2
    simp only [hv, h1, h2, h3, if_true, if_false] at key
    rw [key]
    refine ⟨fun _ => ?_, fun h => absurd hv h, ?_, ?_⟩
    · cases hf : form.feedback <;> simp [setFeedback, clearErrors, Form.reset, hf]
    · simp [setFeedback, clearErrors, Form.reset, hv]
      cases hf : form.feedback <;> simp
    · intro fb hf
      simp [setFeedback, clearErrors, Form.reset, hf, hv]
  · simp only [hv, if_false] at key
    rw [key]
    refine ⟨fun h => absurd h hv, fun _ => ?_, ?_, ?_⟩
    · cases hf : form.feedback <;>
        by_cases h1 : trim form.name.value = [] <;>
        by_cases h2 : emailRegexTest (trim form.email.value) = true <;>
        by_cases h3 : 24 ≤ (trim form.message.value).length <;>
        simp [setFeedback, clearErrors, showError, hf, h1, h2, h3]
    · cases hf : form.feedback <;>
        by_cases h1 : trim form.name.value = [] <;>
        by_cases h2 : emailRegexTest (trim form.email.value) = true <;>
        by_cases h3 : 24 ≤ (trim form.message.value).length <;>
        simp [setFeedback, clearErrors, showError, hf, h1, h2, h3, hv]
    · intro fb hf
      by_cases h1 : trim form.name.value = [] <;>
        by_cases h2 : emailRegexTest (trim form.email.value) = true <;>
        by_cases h3 : 24 ≤ (trim form.message.value).length <;>
        simp [setFeedback, clearErrors, showError, hf, h1, h2, h3, hv,
          Ne.symm success_ne_failure]

/-- C2. For every form, whatever its error regions held before, after the submit
handler each error region that exists holds the message of its own field when
that field's check failed and is empty otherwise, independently of the other
two checks; the three messages are non-empty. With a valid name, a valid
message and the e-mail `ada@@x` the e-mail region alone is filled and the
feedback region shows the aggregate failure message. -/
theorem onSubmit_field_errors (computed : ComputedStyle) (form : Form) :
    (onSubmit computed form).name.error =
        form.name.error.map (fun _ => if trim form.name.value = [] then nameRequired else []) ∧
    (onSubmit computed form).email.error =
        form.email.error.map
          (fun _ => if emailRegexTest (trim form.email.value) = true then [] else emailInvalid) ∧
    (onSubmit computed form).message.error =
        form.message.error.map
          (fun _ => if 24 ≤ (trim form.message.value).length then [] else messageTooShort) ∧
    (nameRequired ≠ [] ∧ emailInvalid ≠ [] ∧ messageTooShort ≠ []) ∧
    (trim form.name.value ≠ [] → 24 ≤ (trim form.message.value).length →
      form.email.value = utf16 "ada@@x" →
        (onSubmit computed form).name.error = form.name.error.map (fun _ => []) ∧
        (onSubmit computed form).email.error = form.email.error.map (fun _ => emailInvalid) ∧
        (onSubmit computed form).message.error = form.message.error.map (fun _ => []) ∧
        (onSubmit computed form).feedback =
          form.feedback.map (fun _ => ⟨failureMessage, utf16 "#ff6b6b"⟩)) := by
  have key := onSubmit_eq computed form
  have general :
      (onSubmit computed form).name.error =
          form.name.error.map (fun _ => if trim form.name.value = [] then nameRequired else []) ∧
      (onSubmit computed form).email.error =
          form.email.error.map
            (fun _ => if emailRegexTest (trim form.email.value) = true then [] else emailInvalid) ∧
      (onSubmit computed form).message.error =
          form.message.error.map
            (fun _ => if 24 ≤ (trim form.message.value).length then [] else messageTooShort) := by
    rw [key]
    cases hf : form.feedback <;>
      by_cases h1 : trim form.name.value = [] <;>
      by_cases h2 : emailRegexTest (trim form.email.value) = true <;>
      by_cases h3 : 24 ≤ (trim form.message.value).length <;>
      simp [ValidSubmission, setFeedback, clearErrors, showError, Form.reset, hf, h1, h2, h3,
        Function.comp_def]
  refine ⟨general.1, general.2.1, general.2.2, ⟨by decide, by decide, by decide⟩, ?_⟩
  intro h1 h3 he
  have h2 : emailRegexTest (trim form.email.value) = false := by rw [he]; decide
  refine ⟨?_, ?_, ?_, ?_⟩
  · rw [general.1]; simp [h1]
  · rw [general.2.1]; simp [h2]
  · rw [general.2.2]; simp [h3]
  · rw [key]
    cases hf : form.feedback <;>
      simp [ValidSubmission, setFeedback, clearErrors, showError, hf, h1, h2, h3]

/-- The form of the contract's first example: all three controls empty. All
three errors and the aggregate failure message appear, and no reset runs. -/
theorem onSubmit_blank :
    onSubmit noStyle blankForm =
      { name := ⟨[], [], some nameRequired⟩
        email := ⟨[], [], some emailInvalid⟩
        message := ⟨[], [], some messageTooShort⟩
        feedback := some ⟨failureMessage, utf16 "#ff6b6b"⟩
        resets := 0 } := by
  decide

/-- The form of the contract's second example: name `Ada`, e-mail
`ada@example.com` and a message of 24 code units. The success message appears
and the form is reset. -/
theorem onSubmit_ada :
    onSubmit noStyle
        (blankForm.fill (utf16 "Ada") (utf16 "ada@example.com") (utf16 "I would like to hire you")) =
      { blankForm with feedback := some ⟨successMessage, []⟩, resets := 1 } := by
  decide

/-! ### Theme and accent -/

theorem light_ne_dark : utf16 "light" ≠ utf16 "dark" := by decide

/-- C4. From every page state, two calls of `toggleTheme` leave the attribute
`data-theme` and the persisted `eliud-theme` both equal to the theme the page
had at the start (`currentTheme`), so the current theme is the original one;
the accent index, the custom properties and the other storage keys are not
touched. -/
theorem toggleTheme_twice (p : Page) :
    (toggleTheme (toggleTheme p)).dataTheme = some (currentTheme p) ∧
    (toggleTheme (toggleTheme p)).storage (utf16 "eliud-theme") = some (currentTheme p) ∧
    currentTheme (toggleTheme (toggleTheme p)) = currentTheme p ∧
    (toggleTheme (toggleTheme p)).accentIndex = p.accentIndex ∧
    (toggleTheme (toggleTheme p)).style = p.style ∧
    (∀ k, k ≠ utf16 "eliud-theme" →
      (toggleTheme (toggleTheme p)).storage k = p.storage k) := by
  have hne := light_ne_dark
  by_cases h : p.dataTheme = some (utf16 "light")
  · refine ⟨?_, ?_, ?_, ?_, ?_, ?_⟩ <;>
      simp [toggleTheme, setTheme, setItem, currentTheme, h, hne, hne.symm]
    intro k hk; simp [hk]
  · refine ⟨?_, ?_, ?_, ?_, ?_, ?_⟩ <;>
      simp [toggleTheme, setTheme, setItem, currentTheme, h, hne, hne.symm]
    intro k hk; simp [hk]

/-- What `updateAccent` shows for a palette index below 4: the persisted string
and the two applied colours are those of the entry, and the script variable is
left as it was. -/
theorem updateAccent_view (computed : ComputedStyle) (p : Page) (k : Nat) (hk : k < 4) :
    ∃ q a, updateAccent computed p (.int k) = .ok q ∧ (ACCENTS computed).get? k = some a ∧
      q.accentIndex = p.accentIndex ∧
      q.storage (utf16 "eliud-accent-index") = some (natToString k) ∧
      q.style (utf16 "--accent") = some a.main ∧
      q.style (utf16 "--accent-2") = some a.secondary := by
  have e1 : utf16 "--accent" ≠ utf16 "--accent-2" := by decide
  have e2 : utf16 "--accent" ≠ utf16 "--accent-shadow" := by decide
  have e3 : utf16 "--accent" ≠ utf16 "--glow" := by decide
  have e4 : utf16 "--accent-2" ≠ utf16 "--accent-shadow" := by decide
  have e5 : utf16 "--accent-2" ≠ utf16 "--glow" := by decide
  interval_cases k
  all_goals
    refine ⟨_, _, rfl, rfl, rfl, ?_, ?_, ?_⟩
    · simp [setItem]; rfl
    · simp [setItem, setCSS, e1, e2, e3]
    · simp [setItem, setCSS, e4, e5]

/-- One accent step from a palette index `k` below 4 moves to `(k + 1) % 4` and
shows that entry. -/
theorem cycleAccent_view (computed : ComputedStyle) (p : Page) (k : Nat) (hk : k < 4)
    (hp : p.accentIndex = .int k) :
    ∃ q a, cycleAccent computed p = .ok q ∧
      (ACCENTS computed).get? ((k + 1) % 4) = some a ∧
      accentView q = (.int ((k + 1) % 4 : Nat), some (natToString ((k + 1) % 4)),
        some a.main, some a.secondary) := by
  have hidx : p.accentIndex.addOne.mod (ACCENTS computed).length
      = .int ((k + 1) % 4 : Nat) := by
    rw [hp]
    interval_cases k <;> rfl
  obtain ⟨q, a, hq, ha, hi, hs, h1, h2⟩ :=
    updateAccent_view computed { p with accentIndex := .int ((k + 1) % 4 : Nat) }
      ((k + 1) % 4) (Nat.mod_lt _ (by decide))
  refine ⟨q, a, ?_, ha, ?_⟩
  · unfold cycleAccent
    simp only [hidx]
    exact hq
  · simp only [accentView, hi, hs, h1, h2]

/-- The accent step run `i` times from index 0: the run completes, and after at
least one step the page shows entry `i % 4`. -/
theorem cycleAccentTimes_view (computed : ComputedStyle) (p : Page)
    (h0 : p.accentIndex = .int 0) (i : Nat) :
    ∃ q, cycleAccentTimes computed i p = .ok q ∧ q.accentIndex = .int (i % 4 : Nat) ∧
      (0 < i → ∃ a, (ACCENTS computed).get? (i % 4) = some a ∧
        accentView q = (.int (i % 4 : Nat), some (natToString (i % 4)),
          some a.main, some a.secondary)) := by
  induction i with
  | zero => exact ⟨p, rfl, h0, fun h => absurd h (by decide)⟩
  | succ n ih =>
    obtain ⟨q, hq, hidx, _⟩ := ih
    obtain ⟨q', a, hq', ha, hv⟩ :=
      cycleAccent_view computed q (n % 4) (Nat.mod_lt _ (by decide)) hidx
    have hmod : (n % 4 + 1) % 4 = (n + 1) % 4 := by omega
    rw [hmod] at ha hv
    refine ⟨q', ?_, ?_, fun _ => ⟨a, ha, hv⟩⟩
    · show (cycleAccentTimes computed n p >>= cycleAccent computed) = .ok q'
      rw [hq]
      exact hq'
    · have := congrArg Prod.fst hv
      simpa [accentView] using this

/-- C3. Start from a page whose accent index is 0. If the accent step of the
click handler runs `i` times, the run completes and the current index, the
persisted `eliud-accent-index` and the applied `--accent` and `--accent-2` are
those of directly selecting index `i % 4`, namely the index `i % 4`, its string
form and the two colours of that palette entry. For `i = 0` nothing runs, so the
start page has to show index 0 already, as `initTheme` leaves it. -/
theorem cycleAccent_times_eq_select (computed : ComputedStyle) (p : Page) (i : Nat)
    (h0 : p.accentIndex = .int 0)
    (hsel : i = 0 →
      (selectAccent computed p 0).toOption.map accentView = some (accentView p)) :
    ∃ q r a, cycleAccentTimes computed i p = .ok q ∧
      selectAccent computed p (i % 4) = .ok r ∧
      accentView q = accentView r ∧
      (ACCENTS computed).get? (i % 4) = some a ∧
      accentView q = (.int (i % 4 : Nat), some (natToString (i % 4)),
        some a.main, some a.secondary) := by
  obtain ⟨q, hq, hidx, hpos⟩ := cycleAccentTimes_view computed p h0 i
  obtain ⟨r, a, hr, ha, hri, hrs, hr1, hr2⟩ :=
    updateAccent_view computed { p with accentIndex := .int (i % 4 : Nat) } (i % 4)
      (Nat.mod_lt _ (by decide))
  have hrv : accentView r = (.int (i % 4 : Nat), some (natToString (i % 4)),
      some a.main, some a.secondary) := by
    simp only [accentView, hri, hrs, hr1, hr2]
  refine ⟨q, r, a, hq, hr, ?_, ha, ?_⟩
  · rcases Nat.eq_zero_or_pos i with hi | hi
    · subst hi
      have hsel' := hsel rfl
      have hq' : q = p := by
        have : (Except.ok p : Except JsError Page) = .ok q := hq
        injection this with h
        exact h.symm
      unfold selectAccent at hsel'
      rw [hr] at hsel'
      simp [Except.toOption] at hsel'
      rw [hq', hsel']
    · obtain ⟨a', ha', hv⟩ := hpos hi
      rw [ha] at ha'
      injection ha' with ha'
      rw [hv, hrv, ha']
  · rcases Nat.eq_zero_or_pos i with hi | hi
    · subst hi
      have hsel' := hsel rfl
      have hq' : q = p := by
        have : (Except.ok p : Except JsError Page) = .ok q := hq
        injection this with h
        exact h.symm
      unfold selectAccent at hsel'
      rw [hr] at hsel'
      simp [Except.toOption] at hsel'
      rw [hq', ← hsel', hrv]
    · obtain ⟨a', ha', hv⟩ := hpos hi
      rw [ha] at ha'
      injection ha' with ha'
      rw [hv, ha']

theorem cycleAccent_times_witness :
    ∃ q r a, cycleAccentTimes noStyle 6 selectedPage = .ok q ∧
      selectAccent noStyle selectedPage (6 % 4) = .ok r ∧
      accentView q = accentView r ∧
      (ACCENTS noStyle).get? (6 % 4) = some a ∧
      accentView q = (.int (6 % 4 : Nat), some (natToString (6 % 4)),
        some a.main, some a.secondary) :=
  cycleAccent_times_eq_select noStyle selectedPage 6 (by decide) (fun _ => by decide)

/-- The function `updateAccent` reads its argument only through
`index % ACCENTS.length`. -/
theorem updateAccent_congr (computed : ComputedStyle) (p : Page) (a b : JsNumber)
    (h : a.mod (ACCENTS computed).length = b.mod (ACCENTS computed).length) :
    updateAccent computed p a = updateAccent computed p b := by
  unfold updateAccent
  simp only [h]

/-- When the script variable holds a natural number `n`, `initTheme` completes,
applies palette entry `n % 4` and persists the string form of `n % 4`. -/
theorem initTheme_of_nat (computed : ComputedStyle) (p : Page) (n : Nat)
    (h : p.accentIndex = .int n) :
    ∃ q a, initTheme computed p = .ok q ∧ (ACCENTS computed).get? (n % 4) = some a ∧
      q.storage (utf16 "eliud-accent-index") = some (natToString (n % 4)) ∧
      q.style (utf16 "--accent") = some a.main ∧
      q.style (utf16 "--accent-2") = some a.secondary := by
  have hmod : (JsNumber.int n).mod (ACCENTS computed).length =
      (JsNumber.int (n % 4 : Nat)).mod (ACCENTS computed).length := by
    show JsNumber.int ((n : Int).tmod 4) = JsNumber.int (((n % 4 : Nat) : Int).tmod 4)
    congr 1
    rw [Int.tmod_eq_emod (by omega) (by omega), Int.tmod_eq_emod (by omega) (by omega)]
    omega
  have key : ∀ P : Page, P.accentIndex = .int n →
      ∃ q a, updateAccent computed P P.accentIndex = .ok q ∧
        (ACCENTS computed).get? (n % 4) = some a ∧
        q.storage (utf16 "eliud-accent-index") = some (natToString (n % 4)) ∧
        q.style (utf16 "--accent") = some a.main ∧
        q.style (utf16 "--accent-2") = some a.secondary := by
    intro P hP
    rw [hP, updateAccent_congr computed P _ _ hmod]
    obtain ⟨q, a, hq, ha, _, hs, h1, h2⟩ :=
      updateAccent_view computed P (n % 4) (Nat.mod_lt _ (by decide))
    exact ⟨q, a, hq, ha, hs, h1, h2⟩
  unfold initTheme
  apply key
  split_ifs <;> simp [setTheme, setItem, h]

/-- C5. Two strings that `localStorage` can hold under `eliud-accent-index` make
`initTheme` fail. With `abc` the script loads `accentIndex` as NaN, with `-1` as
the number -1; in both cases `index % 4` is no index of the palette,
`ACCENTS[index % 4]` is `undefined`, and `updateAccent` aborts with a TypeError
when it reads `accent.main`: no palette entry is applied and nothing is
persisted. A stored theme that is neither `light` nor `dark`, by contrast, is
replaced by the system preference. -/
theorem initTheme_fails_on_stored_garbage :
    (loadScript (storageWith (utf16 "eliud-accent-index") (utf16 "abc")) none false).map
        Page.accentIndex = some .nan ∧
    (startup noStyle (storageWith (utf16 "eliud-accent-index") (utf16 "abc")) none false).map
        failure = some (some .typeError) ∧
    (loadScript (storageWith (utf16 "eliud-accent-index") (utf16 "-1")) none false).map
        Page.accentIndex = some (.int (-1)) ∧
    (startup noStyle (storageWith (utf16 "eliud-accent-index") (utf16 "-1")) none false).map
        failure = some (some .typeError) ∧
    (startup noStyle (storageWith (utf16 "eliud-theme") (utf16 "abc")) none false).map
        (fun r => r.toOption.map Page.dataTheme) = some (some (some (utf16 "dark"))) := by
  refine ⟨?_, ?_, ?_, ?_, ?_⟩ <;> decide

/-! ### Snapshot counters -/

theorem progress_le_one (start now : ℚ) : progress start now ≤ 1 :=
  min_le_right _ _

theorem progress_mono (start t1 t2 : ℚ) (h : t1 ≤ t2) :
    progress start t1 ≤ progress start t2 := by
  unfold progress duration
  apply min_le_min_right
  apply div_le_div_of_nonneg_right _ (by norm_num)
  linarith

theorem progress_nonneg (start now : ℚ) (h : start ≤ now) : 0 ≤ progress start now := by
  unfold progress duration
  apply le_min _ (by norm_num)
  apply div_nonneg _ (by norm_num)
  linarith

theorem progress_eq_one (start now : ℚ) (h : start + 2000 ≤ now) :
    progress start now = 1 := by
  unfold progress duration
  apply min_eq_right
  rw [le_div_iff₀ (by norm_num)]
  linarith

/-- The stand-in `floorPow` takes base 2 to the exact powers at integer exponents,
is monotone in the exponent, positive, and at most 1 at exponents up to 0. -/
theorem floorPow_two_mono (x y : ℚ) (h : x ≤ y) : floorPow 2 x ≤ floorPow 2 y := by
  unfold floorPow
  exact zpow_le_zpow_right₀ (by norm_num) (Int.floor_mono h)

theorem floorPow_two_nonneg (x : ℚ) : 0 ≤ floorPow 2 x := by
  unfold floorPow
  positivity

theorem floorPow_two_zero : floorPow 2 0 = 1 := by
  simp [floorPow]

theorem floorPow_two_unit (x : ℚ) (h : x ≤ 0) : 0 ≤ floorPow 2 x ∧ floorPow 2 x ≤ 1 := by
  refine ⟨floorPow_two_nonneg x, ?_⟩
  have := floorPow_two_mono x 0 h
  rwa [floorPow_two_zero] at this

/-- C10, counterexample. A frame time stamp 50 for an animation started at 100
gives the progress `-1/40`: `Math.min` bounds the quotient above only. -/
theorem progress_negative_before_start :
    progress 100 50 = -1 / 40 ∧ ¬ (0 ≤ progress 100 50 ∧ progress 100 50 ≤ 1) := by
  have h : progress 100 50 = -1 / 40 := by norm_num [progress, duration]
  refine ⟨h, ?_⟩
  rw [h]
  norm_num

/-- C10, amended. The progress `update` computes is at most 1 for every start
and time stamp; for a time stamp that is not before the start it is at least 0,
and then the eased progress lies in `[0, 1]` as well, given that `Math.pow(2, x)`
lies in `[0, 1]` for `x ≤ 0`. -/
theorem progress_bounds (pow : ℚ → ℚ → ℚ) (start now : ℚ)
    (hpow : ∀ x, x ≤ 0 → 0 ≤ pow 2 x ∧ pow 2 x ≤ 1) :
    progress start now ≤ 1 ∧
    (start ≤ now →
      0 ≤ progress start now ∧
      0 ≤ easeOutExpo pow (progress start now) ∧
      easeOutExpo pow (progress start now) ≤ 1) := by
  refine ⟨progress_le_one start now, fun h => ?_⟩
  have h0 := progress_nonneg start now h
  refine ⟨h0, ?_⟩
  unfold easeOutExpo
  split_ifs with h1
  · norm_num
  · have hx : -10 * progress start now ≤ 0 := by linarith
    obtain ⟨ha, hb⟩ := hpow _ hx
    constructor <;> linarith

theorem progress_bounds_witness :
    progress 0 500 ≤ 1 ∧
    ((0 : ℚ) ≤ 500 →
      0 ≤ progress 0 500 ∧
      0 ≤ easeOutExpo floorPow (progress 0 500) ∧
      easeOutExpo floorPow (progress 0 500) ≤ 1) :=
  progress_bounds floorPow 0 500 floorPow_two_unit

theorem mathRound_mono (x y : ℚ) (h : x ≤ y) : mathRound x ≤ mathRound y := by
  unfold mathRound
  exact Int.floor_mono (by linarith)

theorem mathRound_intCast (z : ℤ) : mathRound (z : ℚ) = z := by
  unfold mathRound
  rw [Int.floor_eq_iff]
  constructor <;> norm_num

/-- The eased progress does not decrease along progress values between 0 and 1,
when `Math.pow(2, x)` is monotone and never negative for `x` from -10 to 0. -/
theorem easeOutExpo_mono (pow : ℚ → ℚ → ℚ)
    (hmono : ∀ x y, -10 ≤ x → x ≤ y → y ≤ 0 → pow 2 x ≤ pow 2 y)
    (hpos : ∀ x, -10 ≤ x → x ≤ 0 → 0 ≤ pow 2 x)
    (a b : ℚ) (ha : 0 ≤ a) (hab : a ≤ b) (hb : b ≤ 1) :
    easeOutExpo pow a ≤ easeOutExpo pow b := by
  unfold easeOutExpo
  by_cases h2 : b = 1
  · rw [if_pos h2]
    split_ifs
    · exact le_refl _
    · have := hpos (-10 * a) (by linarith) (by linarith)
      linarith
  · have hb' : b < 1 := lt_of_le_of_ne hb h2
    have h1 : a ≠ 1 := by
      intro h
      linarith
    rw [if_neg h1, if_neg h2]
    have := hmono (-10 * b) (-10 * a) (by linarith) (by linarith) (by linarith)
    linarith

theorem easeOutExpo_le_one (pow : ℚ → ℚ → ℚ) (hpos : ∀ x, 0 ≤ pow 2 x) (t : ℚ) :
    easeOutExpo pow t ≤ 1 := by
  unfold easeOutExpo
  split_ifs
  · exact le_refl _
  · have := hpos (-10 * t)
    linarith

/-- On a finite target `updateDouble` is `update`. -/
theorem updateDouble_fin (pow : ℚ → ℚ → ℚ) (target start now : ℚ) :
    updateDouble pow (.fin target) start now =
      (.fin ((update pow target start now).1 : ℚ), (update pow target start now).2) :=
  rfl

/-- C6, counterexample. For an animation that starts at time 0, whatever
`Math.pow` returns away from `Math.pow(2, 0) = 1` and `Math.pow(2, -1) = 0.5`: a
counter with `data-count="-5"` shows 0 on a frame at time 0, -2 on a frame at
time 200 and -5 on a frame at time 2000, so the displayed value falls; a counter
with `data-count="Infinity"` shows NaN at time 0 (`Infinity * 0`) and Infinity
at time 2000, and `NaN <= Infinity` is false. -/
theorem displayedDouble_not_monotone :
    (0 : ℚ) ≤ 0 ∧ (0 : ℚ) < 200 ∧ (200 : ℚ) ≤ 2000 ∧
    (∀ pow : ℚ → ℚ → ℚ, pow 2 0 = 1 →
      (displayedDouble pow (.fin (-5)) 0 0 = .fin 0 ∧
        displayedDouble pow (.fin (-5)) 0 2000 = .fin (-5) ∧
        ¬ (displayedDouble pow (.fin (-5)) 0 0).le (displayedDouble pow (.fin (-5)) 0 2000)) ∧
      (displayedDouble pow .posInf 0 0 = .nan ∧
        displayedDouble pow .posInf 0 2000 = .posInf ∧
        ¬ (displayedDouble pow .posInf 0 0).le (displayedDouble pow .posInf 0 2000))) ∧
    (∀ pow : ℚ → ℚ → ℚ, pow 2 (-1) = 1 / 2 →
      displayedDouble pow (.fin (-5)) 0 200 = .fin (-2) ∧
      displayedDouble pow (.fin (-5)) 0 2000 = .fin (-5) ∧
      ¬ (displayedDouble pow (.fin (-5)) 0 200).le
          (displayedDouble pow (.fin (-5)) 0 2000)) := by
  have p0 : progress 0 0 = 0 := by norm_num [progress, duration]
  have p1 : progress 0 2000 = 1 := by norm_num [progress, duration]
  have p2 : progress 0 200 = 1 / 10 := by norm_num [progress, duration]
  have r0 : mathRound 0 = 0 := by
    have := mathRound_intCast 0
    simpa using this
  have r5 : mathRound (-5) = -5 := by
    have := mathRound_intCast (-5)
    simpa using this
  have r2 : mathRound (-5 / 2) = -2 := by
    unfold mathRound
    rw [Int.floor_eq_iff]
    constructor <;> norm_num
  have a2 : ∀ pow : ℚ → ℚ → ℚ, displayedDouble pow (.fin (-5)) 0 2000 = .fin (-5) := by
    intro pow
    have e1 : easeOutExpo pow 1 = 1 := by norm_num [easeOutExpo]
    simp [displayedDouble, updateDouble, p1, e1, JsDouble.mulFin, JsDouble.round, r5]
  refine ⟨le_refl _, by norm_num, by norm_num, fun pow h => ?_, fun pow h => ?_⟩
  · have e0 : easeOutExpo pow 0 = 0 := by norm_num [easeOutExpo, h]
    have e1 : easeOutExpo pow 1 = 1 := by norm_num [easeOutExpo]
    have a1 : displayedDouble pow (.fin (-5)) 0 0 = .fin 0 := by
      simp [displayedDouble, updateDouble, p0, e0, JsDouble.mulFin, JsDouble.round, r0]
    have b1 : displayedDouble pow .posInf 0 0 = .nan := by
      simp [displayedDouble, updateDouble, p0, e0, JsDouble.mulFin, JsDouble.round]
    have b2 : displayedDouble pow .posInf 0 2000 = .posInf := by
      simp [displayedDouble, updateDouble, p1, e1, JsDouble.mulFin, JsDouble.round]
    refine ⟨⟨a1, a2 pow, ?_⟩, ⟨b1, b2, ?_⟩⟩
    · rw [a1, a2 pow]
      show ¬ ((0 : ℚ) ≤ -5)
      norm_num
    · rw [b1, b2]
      exact fun h => h
  · have e2 : easeOutExpo pow (1 / 10) = 1 / 2 := by
      have hx : (-10 : ℚ) * (1 / 10) = -1 := by norm_num
      norm_num [easeOutExpo, hx, h]
    have c1 : displayedDouble pow (.fin (-5)) 0 200 = .fin (-2) := by
      have hm : (-5 : ℚ) * (1 / 2) = -5 / 2 := by norm_num
      simp only [displayedDouble, updateDouble, p2, e2, JsDouble.mulFin, JsDouble.round, hm, r2]
      norm_num
    refine ⟨c1, a2 pow, ?_⟩
    rw [c1, a2 pow]
    show ¬ ((-2 : ℚ) ≤ -5)
    norm_num

/-- C6, amended. For every finite target that is not negative and every two
frame time stamps `t1 ≤ t2` that are not before the start of the animation, the
value displayed at `t1` is at most the value displayed at `t2` (the comparison
`<=` of the two numbers holds), where the displayed value is
`round(target * easeOutExpo(min((t - start) / 2000, 1)))`; `Math.pow(2, x)` is
taken monotone in `x` and never negative for `x` from -10 to 0, the exponents
that occur. -/
theorem displayedDouble_mono (pow : ℚ → ℚ → ℚ) (target start t1 t2 : ℚ)
    (hmono : ∀ x y, -10 ≤ x → x ≤ y → y ≤ 0 → pow 2 x ≤ pow 2 y)
    (hpos : ∀ x, -10 ≤ x → x ≤ 0 → 0 ≤ pow 2 x)
    (htarget : 0 ≤ target) (hstart : start ≤ t1) (h : t1 ≤ t2) :
    displayedDouble pow (.fin target) start t1 =
        .fin (mathRound (target * easeOutExpo pow (min ((t1 - start) / 2000) 1))) ∧
    displayedDouble pow (.fin target) start t2 =
        .fin (mathRound (target * easeOutExpo pow (min ((t2 - start) / 2000) 1))) ∧
    (displayedDouble pow (.fin target) start t1).le
      (displayedDouble pow (.fin target) start t2) := by
  refine ⟨rfl, rfl, ?_⟩
  show ((mathRound (target * easeOutExpo pow (progress start t1)) : ℤ) : ℚ) ≤
    ((mathRound (target * easeOutExpo pow (progress start t2)) : ℤ) : ℚ)
  have key : mathRound (target * easeOutExpo pow (progress start t1)) ≤
      mathRound (target * easeOutExpo pow (progress start t2)) := by
    apply mathRound_mono
    apply mul_le_mul_of_nonneg_left _ htarget
    exact easeOutExpo_mono pow hmono hpos _ _ (progress_nonneg start t1 hstart)
      (progress_mono start t1 t2 h) (progress_le_one start t2)
  exact_mod_cast key

theorem displayedDouble_mono_witness :
    displayedDouble floorPow (.fin 40) 0 200 =
        .fin (mathRound (40 * easeOutExpo floorPow (min ((200 - 0) / 2000) 1))) ∧
    displayedDouble floorPow (.fin 40) 0 1000 =
        .fin (mathRound (40 * easeOutExpo floorPow (min ((1000 - 0) / 2000) 1))) ∧
    (displayedDouble floorPow (.fin 40) 0 200).le (displayedDouble floorPow (.fin 40) 0 1000) :=
  displayedDouble_mono floorPow 40 0 200 1000
    (fun x y _ hxy _ => floorPow_two_mono x y hxy) (fun x _ _ => floorPow_two_nonneg x)
    (by norm_num) (by norm_num) (by norm_num)

/-- C7, counterexample. A counter with `data-count="-3"` shows 0, above its
target, on a frame at its start time; a counter with `data-count="2.5"` shows 3
once the progress is 1, above its target and not equal to it. -/
theorem displayed_exceeds_target :
    (∀ pow : ℚ → ℚ → ℚ, pow 2 0 = 1 →
      displayed pow (-3) 10 10 = 0 ∧ ((-3 : ℚ) < (displayed pow (-3) 10 10 : ℚ))) ∧
    (∀ pow : ℚ → ℚ → ℚ,
      update pow (5 / 2) 0 2000 = (3, false) ∧ ((5 / 2 : ℚ) < ((3 : ℤ) : ℚ))) := by
  refine ⟨fun pow h => ?_, fun pow => ?_⟩
  · have h1 : displayed pow (-3) 10 10 = 0 := by
      norm_num [displayed, update, progress, easeOutExpo, mathRound, duration, h]
    rw [h1]
    norm_num
  · refine ⟨?_, by norm_num⟩
    have hp : progress 0 2000 = 1 := by norm_num [progress, duration]
    have hr : mathRound (5 / 2) = 3 := by
      unfold mathRound
      rw [Int.floor_eq_iff]
      constructor <;> norm_num
    simp [update, hp, easeOutExpo, hr]

/-- C7, amended. For every target that is a natural number and every frame time
stamp, the value `update` displays is at most the target, given that
`Math.pow(2, x)` is never negative; and at progress 1, that is from 2000 ms
after the start on, it displays the target itself and requests no further
frame. -/
theorem displayed_le_target (pow : ℚ → ℚ → ℚ) (n : ℕ) (start now : ℚ)
    (hpos : ∀ x, 0 ≤ pow 2 x) :
    displayed pow n start now ≤ (n : ℤ) ∧
    (start + 2000 ≤ now → update pow n start now = ((n : ℤ), false)) := by
  constructor
  · unfold displayed update
    have h1 : (n : ℚ) * easeOutExpo pow (progress start now) ≤ ((n : ℤ) : ℚ) := by
      have := easeOutExpo_le_one pow hpos (progress start now)
      have hn : (0 : ℚ) ≤ n := Nat.cast_nonneg n
      push_cast
      nlinarith
    have := mathRound_mono _ _ h1
    rwa [mathRound_intCast] at this
  · intro h
    have hp := progress_eq_one start now h
    have hr : mathRound (n : ℚ) = (n : ℤ) := by
      have := mathRound_intCast (n : ℤ)
      simpa using this
    simp [update, hp, easeOutExpo, hr]

theorem displayed_le_target_witness :
    displayed floorPow (40 : ℕ) 0 2500 ≤ ((40 : ℕ) : ℤ) ∧
    ((0 : ℚ) + 2000 ≤ 2500 → update floorPow (40 : ℕ) 0 2500 = (((40 : ℕ) : ℤ), false)) :=
  displayed_le_target floorPow 40 0 2500 floorPow_two_nonneg

/-- C8, counterexample. In reduced-motion mode, `initCounters` on a page with one
counter, `data-count="5"` and the text `0`, hands the element to the observer and
leaves its text at `0`: the target is not displayed when the counters are
initialised. -/
theorem reduced_counter_unchanged_by_init :
    initCounters true [⟨some 5, .markup (utf16 "0"), false, none⟩] =
      ⟨true, [⟨some 5, .markup (utf16 "0"), true, none⟩]⟩ ∧
    Content.markup (utf16 "0") ≠ Content.number 5 := by
  constructor
  · rfl
  · intro h
    cases h

/-- C8, amended. In reduced-motion mode `initCounters` changes no displayed text.
A counter element with a non-zero target gets its text set to the target when
the observer reports it as intersecting, in that one step: it is then no longer
observed, no frame is pending for it, and a later animation frame does not
change it. An entry that is not intersecting changes nothing, and an
intersecting entry leaves the other elements alone. -/
theorem reduced_counter_jumps_on_intersection (pow : ℚ → ℚ → ℚ) (els : List CounterEl)
    (i : Nat) (el : CounterEl) (t clock now : ℚ)
    (hel : els[i]? = some el) (ht : el.target = some t) (h0 : t ≠ 0)
    (hidle : el.pending = none) :
    (initCounters true els).els.map CounterEl.textContent = els.map CounterEl.textContent ∧
    onEntry (initCounters true els) ⟨i, false, clock⟩ = initCounters true els ∧
    (onEntry (initCounters true els) ⟨i, true, clock⟩).els[i]? =
      some { el with textContent := .number t, observed := false } ∧
    (∀ j, j ≠ i →
      (onEntry (initCounters true els) ⟨i, true, clock⟩).els[j]? =
        (initCounters true els).els[j]?) ∧
    onFrame pow now { el with textContent := .number t, observed := false } =
      { el with textContent := .number t, observed := false } := by
  have hne : els.isEmpty = false := by
    cases els with
    | nil => simp at hel
    | cons a l => rfl
  have hinit : initCounters true els =
      ⟨true, els.map fun el => { el with observed := true }⟩ := by
    simp [initCounters, hne]
  refine ⟨?_, ?_, ?_, ?_, ?_⟩
  · rw [hinit]
    simp [Function.comp_def]
  · simp [onEntry]
  · rw [hinit]
    simp [onEntry, List.getElem?_modify_eq, hel, animateCount, ht, h0]
  · intro j hj
    rw [hinit]
    simp only [onEntry, if_true]
    rw [List.getElem?_modify_ne _ _ (Ne.symm hj)]
  · simp [onFrame, hidle]

theorem reduced_counter_jumps_witness :
    (initCounters true [⟨some 5, .markup (utf16 "0"), false, none⟩]).els.map
        CounterEl.textContent =
      [(⟨some 5, .markup (utf16 "0"), false, none⟩ : CounterEl)].map CounterEl.textContent ∧
    onEntry (initCounters true [⟨some 5, .markup (utf16 "0"), false, none⟩]) ⟨0, false, 7⟩ =
      initCounters true [⟨some 5, .markup (utf16 "0"), false, none⟩] ∧
    (onEntry (initCounters true [⟨some 5, .markup (utf16 "0"), false, none⟩])
        ⟨0, true, 7⟩).els[0]? =
      some { (⟨some 5, .markup (utf16 "0"), false, none⟩ : CounterEl) with
        textContent := .number 5, observed := false } ∧
    (∀ j, j ≠ 0 →
      (onEntry (initCounters true [⟨some 5, .markup (utf16 "0"), false, none⟩])
          ⟨0, true, 7⟩).els[j]? =
        (initCounters true [⟨some 5, .markup (utf16 "0"), false, none⟩]).els[j]?) ∧
    onFrame floorPow 16 { (⟨some 5, .markup (utf16 "0"), false, none⟩ : CounterEl) with
        textContent := .number 5, observed := false } =
      { (⟨some 5, .markup (utf16 "0"), false, none⟩ : CounterEl) with
        textContent := .number 5, observed := false } :=
  reduced_counter_jumps_on_intersection floorPow [⟨some 5, .markup (utf16 "0"), false, none⟩]
    0 ⟨some 5, .markup (utf16 "0"), false, none⟩ 5 7 16 rfl rfl (by norm_num) rfl

/-! ### Particle field -/

/-- C9. For every viewport size, every particle and whatever the sum of two
doubles rounds to, one frame step first adds the velocity to the position; if
the sum lies beyond `width + 10` the particle is moved to `-10`, if it lies below
`-10` the particle is moved to `width + 10`, and otherwise the particle is at the
sum; likewise for `y` with the height. After the step the position lies between
`-10` and the viewport size plus 10 on both axes. Radius, velocity and opacity
are kept, and a frame of `animateParticles` with a drawing context does this to
every particle. -/
theorem stepParticle_wraps (add : ℚ → ℚ → ℚ) (innerWidth innerHeight : ℕ) (p : Particle) :
    ((innerWidth : ℚ) + 10 < add p.x p.speedX →
      (stepParticle add innerWidth innerHeight p).x = -10) ∧
    (add p.x p.speedX < -10 →
      (stepParticle add innerWidth innerHeight p).x = (innerWidth : ℚ) + 10) ∧
    (-10 ≤ add p.x p.speedX → add p.x p.speedX ≤ (innerWidth : ℚ) + 10 →
      (stepParticle add innerWidth innerHeight p).x = add p.x p.speedX) ∧
    ((innerHeight : ℚ) + 10 < add p.y p.speedY →
      (stepParticle add innerWidth innerHeight p).y = -10) ∧
    (add p.y p.speedY < -10 →
      (stepParticle add innerWidth innerHeight p).y = (innerHeight : ℚ) + 10) ∧
    (-10 ≤ add p.y p.speedY → add p.y p.speedY ≤ (innerHeight : ℚ) + 10 →
      (stepParticle add innerWidth innerHeight p).y = add p.y p.speedY) ∧
    (-10 ≤ (stepParticle add innerWidth innerHeight p).x ∧
      (stepParticle add innerWidth innerHeight p).x ≤ (innerWidth : ℚ) + 10 ∧
      -10 ≤ (stepParticle add innerWidth innerHeight p).y ∧
      (stepParticle add innerWidth innerHeight p).y ≤ (innerHeight : ℚ) + 10) ∧
    ((stepParticle add innerWidth innerHeight p).radius = p.radius ∧
      (stepParticle add innerWidth innerHeight p).speedX = p.speedX ∧
      (stepParticle add innerWidth innerHeight p).speedY = p.speedY ∧
      (stepParticle add innerWidth innerHeight p).alpha = p.alpha) ∧
    (∀ particles : List Particle,
      animateParticles add true innerWidth innerHeight particles =
        particles.map (stepParticle add innerWidth innerHeight)) := by
  have hw : (0 : ℚ) ≤ innerWidth := Nat.cast_nonneg _
  have hh : (0 : ℚ) ≤ innerHeight := Nat.cast_nonneg _
  have hx1 : (innerWidth : ℚ) + 10 < add p.x p.speedX →
      (stepParticle add innerWidth innerHeight p).x = -10 := by
    intro h
    have h1 : ¬ (add p.x p.speedX < -10) := by linarith
    simp [stepParticle, h1, h]
  have hx2 : add p.x p.speedX < -10 →
      (stepParticle add innerWidth innerHeight p).x = (innerWidth : ℚ) + 10 := by
    intro h
    simp [stepParticle, h]
  have hx3 : -10 ≤ add p.x p.speedX → add p.x p.speedX ≤ (innerWidth : ℚ) + 10 →
      (stepParticle add innerWidth innerHeight p).x = add p.x p.speedX := by
    intro h1 h2
    simp [stepParticle, not_lt.mpr h1, not_lt.mpr h2]
  have hy1 : (innerHeight : ℚ) + 10 < add p.y p.speedY →
      (stepParticle add innerWidth innerHeight p).y = -10 := by
    intro h
    have h1 : ¬ (add p.y p.speedY < -10) := by linarith
    simp [stepParticle, h1, h]
  have hy2 : add p.y p.speedY < -10 →
      (stepParticle add innerWidth innerHeight p).y = (innerHeight : ℚ) + 10 := by
    intro h
    simp [stepParticle, h]
  have hy3 : -10 ≤ add p.y p.speedY → add p.y p.speedY ≤ (innerHeight : ℚ) + 10 →
      (stepParticle add innerWidth innerHeight p).y = add p.y p.speedY := by
    intro h1 h2
    simp [stepParticle, not_lt.mpr h1, not_lt.mpr h2]
  have bx : -10 ≤ (stepParticle add innerWidth innerHeight p).x ∧
      (stepParticle add innerWidth innerHeight p).x ≤ (innerWidth : ℚ) + 10 := by
    rcases lt_or_le (add p.x p.speedX) (-10) with h | h
    · rw [hx2 h]
      constructor <;> linarith
    · rcases lt_or_le ((innerWidth : ℚ) + 10) (add p.x p.speedX) with h' | h'
      · rw [hx1 h']
        constructor <;> linarith
      · rw [hx3 h h']
        exact ⟨h, h'⟩
  have by' : -10 ≤ (stepParticle add innerWidth innerHeight p).y ∧
      (stepParticle add innerWidth innerHeight p).y ≤ (innerHeight : ℚ) + 10 := by
    rcases lt_or_le (add p.y p.speedY) (-10) with h | h
    · rw [hy2 h]
      constructor <;> linarith
    · rcases lt_or_le ((innerHeight : ℚ) + 10) (add p.y p.speedY) with h' | h'
      · rw [hy1 h']
        constructor <;> linarith
      · rw [hy3 h h']
        exact ⟨h, h'⟩
  exact ⟨hx1, hx2, hx3, hy1, hy2, hy3, ⟨bx.1, bx.2, by'.1, by'.2⟩, ⟨rfl, rfl, rfl, rfl⟩,
    fun _ => rfl⟩

end Script
